import Mathlib

/-!
Verification development for the TunnelFin deployment scripts
(`scripts/build-plugin.py` and `scripts/deploy.py`).

The Python functions are shallowly embedded as executable Lean
definitions: strings are processed over their character lists, Python
`int` values become `Int`, Python lists become `List`, network calls
become oracles (functions from the poll slot index to the observed
response), and wall-clock polling loops become recursion over discrete
poll slots, where slot `k` happens at elapsed time `2 * k` (the fixed
2-second sleep between attempts).
-/

namespace TunnelFin

/-! ### Python string helpers (build-plugin.py `parse_version`) -/

/-- Python `str.lstrip('v')`: drop every leading `v` character. -/
def lstripV : List Char → List Char
  | 'v' :: rest => lstripV rest
  | cs => cs

/-- Python `str.split('.')`: split on `.`, keeping empty pieces
(`"".split('.') == ['']`, `"a.".split('.') == ['a','']`). -/
def splitDots : List Char → List (List Char)
  | [] => [[]]
  | c :: rest =>
    if c = '.' then [] :: splitDots rest
    else
      match splitDots rest with
      | g :: gs => (c :: g) :: gs
      | [] => [[c]]

/-- Accumulate decimal digits; `none` as soon as a non-digit appears. -/
def digitsAcc : List Char → Nat → Option Nat
  | [], acc => some acc
  | c :: rest, acc =>
    if c.isDigit then digitsAcc rest (acc * 10 + (c.toNat - 48)) else none

/-- Nonempty all-digit sequence to its value. -/
def digitsToNat? (cs : List Char) : Option Nat :=
  match cs with
  | [] => none
  | _ :: _ => digitsAcc cs 0

/-- Python `int(s)` on the strings that occur in version tags: an
optional sign followed by at least one decimal digit; anything else
raises `ValueError` (modelled as `none`). -/
def pyInt? (cs : List Char) : Option Int :=
  match cs with
  | '-' :: rest => (digitsToNat? rest).map (fun n => -(n : Int))
  | '+' :: rest => (digitsToNat? rest).map (fun n => (n : Int))
  | _ => (digitsToNat? cs).map (fun n => (n : Int))

/-- Python `tuple(int(p) for p in parts)` inside a `try`: all parts must
parse, otherwise the whole conversion raises (modelled as `none`). -/
def allInts? : List (List Char) → Option (List Int)
  | [] => some []
  | p :: ps =>
    match pyInt? p, allInts? ps with
    | some v, some vs => some (v :: vs)
    | _, _ => none

/-- `parse_version` (build-plugin.py lines 659-666): strip leading `v`s,
split on dots, take the first four components; if every one parses as an
int return the tuple, on `ValueError` return `(0, 0, 0, 0)`. -/
def parse_version (s : String) : List Int :=
  match allInts? ((splitDots (lstripV s.data)).take 4) with
  | some vals => vals
  | none => [0, 0, 0, 0]

/-- A tag whose first four dot-components do not all parse as ints, i.e.
the `except ValueError` branch of `parse_version` fires. -/
def malformedTag (s : String) : Bool :=
  (allInts? ((splitDots (lstripV s.data)).take 4)).isNone

/-- Python `tag.startswith('v')`. -/
def startsV (s : String) : Bool :=
  match s.data with
  | 'v' :: _ => true
  | _ => false

/-! ### Version tuple comparison and `get_next_version` -/

/-- Python `<` on int tuples: lexicographic, a strict prefix is
smaller. -/
def tupleLt : List Int → List Int → Bool
  | [], [] => false
  | [], _ :: _ => true
  | _ :: _, [] => false
  | a :: as', b :: bs' =>
    if a < b then true
    else if b < a then false
    else tupleLt as' bs'

/-- Python `max(versions)`: fold keeping the current maximum, replacing
it only when a strictly larger element appears. -/
def maxVersion (v : List Int) (vs : List (List Int)) : List Int :=
  vs.foldl (fun acc x => if tupleLt acc x then x else acc) v

/-- `while len(parts) < 4: parts.append(0)`. -/
def padTo4 (l : List Int) : List Int :=
  l ++ List.replicate (4 - l.length) 0

/-- Python `'.'.join(strs)`. -/
def joinDots : List String → String
  | [] => ""
  | [s] => s
  | s :: rest => s ++ "." ++ joinDots rest

/-- The tail of `get_next_version` after `latest = max(versions)`: pad
to four components, `parts[3] += 1`, join the first four with dots. -/
def bumpJoin (latest : List Int) : String :=
  let padded := padTo4 latest
  let bumped := padded.set 3 (padded.getD 3 0 + 1)
  joinDots ((bumped.take 4).map (fun p => toString p))

/-- Core of `get_next_version` once the tag sources are collected:
empty history returns `"1.0.0.0"`, otherwise bump the maximum. -/
def resolveCore : List (List Int) → String
  | [] => "1.0.0.0"
  | v :: vs => bumpJoin (maxVersion v vs)

/-- `get_next_version` (build-plugin.py lines 669-712): collect git tags
and GitHub release tags, keep only those starting with `v`, parse each,
and bump the maximum; `"1.0.0.0"` when nothing was collected. -/
def get_next_version (gitTags releaseTags : List String) : String :=
  resolveCore ((gitTags.filter startsV).map parse_version ++
    (releaseTags.filter startsV).map parse_version)

/-! ### Manifest entries (`update_manifest` in both scripts) -/

/-- One element of the channel's `versions` array in manifest.json. -/
structure VersionEntry where
  version : String
  changelog : String
  targetAbi : String
  sourceUrl : String
  checksum : String
  timestamp : String
  deriving DecidableEq, Repr

/-- The fresh entry built by build-plugin.py's `update_manifest` when the
version is not present yet (lines 462-471). -/
def mkNewEntry (version checksum timestamp : String) : VersionEntry :=
  { version := version
    changelog := "v" ++ version ++ " - Local build deployment"
    targetAbi := "10.11.0.0"
    sourceUrl := "https://github.com/jefflouisma/TunnelFin/releases/download/v" ++
      version ++ "/tunnelfin_" ++ version ++ ".zip"
    checksum := checksum
    timestamp := timestamp }

/-- The `for v in versions: if v.get("version") == version: ... break`
loop followed by the in-place mutation of `checksum` and `timestamp`:
only the first entry whose `version` field matches is rewritten. -/
def setFirstMatch : List VersionEntry → String → String → String → List VersionEntry
  | [], _, _, _ => []
  | v :: rest, version, checksum, timestamp =>
    if v.version == version then
      { v with checksum := checksum, timestamp := timestamp } :: rest
    else
      v :: setFirstMatch rest version checksum timestamp

/-- Whether the scan of `update_manifest` finds an entry for `version`. -/
def hasVersion (vs : List VersionEntry) (version : String) : Bool :=
  vs.any (fun v => v.version == version)

/-- `update_manifest` (build-plugin.py lines 438-477), restricted to its
pure effect on the channel's `versions` list: update the first entry
with a matching `version` field in place, else prepend a new entry. -/
def update_manifest (vs : List VersionEntry) (version checksum timestamp : String) :
    List VersionEntry :=
  if hasVersion vs version then setFirstMatch vs version checksum timestamp
  else mkNewEntry version checksum timestamp :: vs

/-- The fresh entry built by deploy.py's `update_manifest`
(lines 84-91). -/
def deployNewEntry (version checksum timestamp : String) : VersionEntry :=
  { version := version
    changelog := "v" ++ version ++ " - Service registration fix:\n- Added IChannel registration for TunnelFinChannel\n- Registered ITorrentEngine, IStreamManager, IIndexerManager services\n- Channel should now appear in Jellyfin UI"
    targetAbi := "10.11.0.0"
    sourceUrl := "https://github.com/jefflouisma/TunnelFin/releases/download/v" ++
      version ++ "/tunnelfin_" ++ version ++ ".zip"
    checksum := checksum
    timestamp := timestamp }

/-- `update_manifest` (deploy.py lines 77-99), restricted to its pure
effect on the channel's `versions` list: it performs no scan at all and
unconditionally inserts the new entry at index 0. -/
def deployUpdateManifest (vs : List VersionEntry) (version checksum timestamp : String) :
    List VersionEntry :=
  deployNewEntry version checksum timestamp :: vs

/-! ### Generic poll loop

Every `while time.time() - start < timeout: ... time.sleep(2)` loop is
modelled over discrete poll slots: the attempt with index `k` is made at
elapsed time `2 * k`, so the loop guard `elapsed < timeout` becomes
`2 * k < timeout`. -/

/-- One sleep-and-retry loop: at slot `k`, if the deadline has not
passed, test the slot's outcome and either return success or move to the
next slot; once `2 * k` reaches `timeout`, return failure. -/
def pollLoop (ok : Nat → Bool) (timeout k : Nat) : Bool :=
  if 2 * k < timeout then
    if ok k then true else pollLoop ok timeout (k + 1)
  else false
termination_by timeout - 2 * k
decreasing_by omega

/-- Number of attempts the poll loop makes (used to count HEAD requests
issued by phase 2 of the CDN check). -/
def pollCount (ok : Nat → Bool) (timeout k : Nat) : Nat :=
  if 2 * k < timeout then
    if ok k then 1 else 1 + pollCount ok timeout (k + 1)
  else 0
termination_by timeout - 2 * k
decreasing_by omega

/-! ### `wait_for_cdn_update` (build-plugin.py lines 378-435) -/

/-- The channel object: element 0 of the manifest's outer array, of
which only the `versions` field is read by the CDN check. -/
structure ManifestChannel where
  versions : List VersionEntry
  deriving DecidableEq, Repr

/-- One phase-1 attempt: the manifest GET either raises (`none`) or
yields a status code and a parsed body; the attempt succeeds when the
status is 200, the outer array is nonempty, the first channel's
`versions` list is nonempty, and its first entry's checksum equals the
expected one.  Any failure is swallowed and retried. -/
def manifestChecksumOk (fetch : Nat → Option (Nat × List ManifestChannel))
    (expected : String) (k : Nat) : Bool :=
  match fetch k with
  | none => false
  | some (status, chans) =>
    status == 200 &&
      match chans with
      | [] => false
      | ch :: _ =>
        match ch.versions with
        | [] => false
        | v :: _ => v.checksum == expected

/-- Phase 1 of `wait_for_cdn_update`: poll the manifest while less than
60% of the timeout has elapsed (`elapsed < timeout * 0.6`, i.e.
`10 * (2 * k) < 6 * timeout`); return the slot at which the checksum
matched, or `none` on sub-budget exhaustion. -/
def cdnPhase1 (ok : Nat → Bool) (timeout k : Nat) : Option Nat :=
  if 20 * k < 6 * timeout then
    if ok k then some k else cdnPhase1 ok timeout (k + 1)
  else none
termination_by 6 * timeout - 20 * k
decreasing_by omega

/-- `wait_for_cdn_update`: after the best-effort cache purge (which has
no observable effect on the result), run phase 1; if it timed out return
`False` immediately; otherwise run phase 2 (HEAD against the zip URL,
success on status 200, redirects followed) on the remaining budget,
continuing from the slot where phase 1 stopped. -/
def wait_for_cdn_update (fetch : Nat → Option (Nat × List ManifestChannel))
    (headStat : Nat → Option Nat) (expected : String) (timeout : Nat) : Bool :=
  match cdnPhase1 (manifestChecksumOk fetch expected) timeout 0 with
  | none => false
  | some k => pollLoop (fun j => headStat j == some 200) timeout k

/-- How many HEAD requests `wait_for_cdn_update` issues against the
asset URL: zero when phase 1 fails, otherwise the number of phase-2
attempts. -/
def cdnHeadRequests (fetch : Nat → Option (Nat × List ManifestChannel))
    (headStat : Nat → Option Nat) (expected : String) (timeout : Nat) : Nat :=
  match cdnPhase1 (manifestChecksumOk fetch expected) timeout 0 with
  | none => 0
  | some k => pollCount (fun j => headStat j == some 200) timeout k

/-! ### Installed-plugin polling (JellyfinDeployer) -/

/-- The fields of an installed-plugin record read by the wait loops. -/
structure Plugin where
  Name : String
  Version : String
  Status : String
  deriving DecidableEq, Repr

/-- Python `str.lower()` (ASCII range, which covers the names used). -/
def lowerStr (s : String) : String :=
  ⟨s.data.map Char.toLower⟩

/-- `next((p for p in plugins if p.get("Name", "").lower() ==
plugin_name.lower()), None)`: first case-insensitive name match. -/
def findPlugin (plugins : List Plugin) (name : String) : Option Plugin :=
  plugins.find? (fun p => lowerStr p.Name == lowerStr name)

/-- One poll of `wait_for_plugin_state` (build-plugin.py lines 316-339):
`none` models a `get_plugins` exception (swallowed).  When the expected
state is `"Deleted"` the poll succeeds exactly when no plugin with the
name is listed; otherwise it succeeds when the plugin is present and its
`Status` field equals the expected state. -/
def pluginStateOkPoll (poll : Option (List Plugin)) (name expected : String) : Bool :=
  match poll with
  | none => false
  | some plugins =>
    if expected == "Deleted" then
      (findPlugin plugins name).isNone
    else
      match findPlugin plugins name with
      | some p => p.Status == expected
      | none => false

/-- `wait_for_plugin_state`: poll every 2 seconds until the state check
succeeds or the timeout elapses. -/
def wait_for_plugin_state (poll : Nat → Option (List Plugin))
    (name expected : String) (timeout : Nat) : Bool :=
  pollLoop (fun k => pluginStateOkPoll (poll k) name expected) timeout 0

/-- One poll of `wait_for_plugin_version` (build-plugin.py lines
341-359): scan all plugins; succeed when one has a case-insensitive name
match, `Version` exactly equal to the target, and `Status == "Active"`. -/
def pluginVersionOkPoll (poll : Option (List Plugin)) (name version : String) : Bool :=
  match poll with
  | none => false
  | some plugins =>
    plugins.any (fun p =>
      lowerStr p.Name == lowerStr name && p.Version == version && p.Status == "Active")

/-- `wait_for_plugin_version`: poll every 2 seconds until the
version-and-active check succeeds or the timeout elapses. -/
def wait_for_plugin_version (poll : Nat → Option (List Plugin))
    (name version : String) (timeout : Nat) : Bool :=
  pollLoop (fun k => pluginVersionOkPoll (poll k) name version) timeout 0

/-! ### `restart_server` (build-plugin.py lines 288-296) -/

/-- Outcome of a Python expression: a value or a raised exception. -/
inductive PyOutcome (α : Type) where
  | ok (val : α)
  | exc (msg : String)
  deriving DecidableEq, Repr

/-- `restart_server`: the POST to `/System/Restart` sits in a
`try ... except Exception: pass`, its response is never inspected, and
the method then returns normally; so whatever the network call does -
including raising a connection error - the method completes without
reporting failure. -/
def restart_server (post : PyOutcome Unit) : PyOutcome Unit :=
  match post with
  | .ok _ => .ok ()
  | .exc _ => .ok ()

/-! ### `ensure_repository` (build-plugin.py lines 226-252) -/

/-- A repository registration as returned by GET /Repositories. -/
structure Repo where
  Name : String
  Url : String
  Enabled : Bool
  deriving DecidableEq, Repr

/-- Python `needle in haystack` on strings: substring containment. -/
def containsSub (needle : List Char) : List Char → Bool
  | [] => needle.isPrefixOf ([] : List Char)
  | c :: cs => needle.isPrefixOf (c :: cs) || containsSub needle cs

/-- `"TunnelFin" in r.get("Name", "")` and friends. -/
def strContains (hay needle : String) : Bool :=
  containsSub needle.data hay.data

/-- `ensure_repository`: find the first registration whose `Name`
contains `"TunnelFin"`; if its `Url` already equals the target, do
nothing at all (`none` = no POST to /Repositories); if it differs,
rewrite that entry's `Url` and set `Enabled` and POST the whole list; if
no registration matches, append a fresh one and POST the whole list. -/
def ensure_repository : List Repo → String → Option (List Repo)
  | [], url => some [{ Name := "TunnelFin", Url := url, Enabled := true }]
  | r :: rest, url =>
    if strContains r.Name "TunnelFin" then
      if r.Url == url then none
      else some ({ r with Url := url, Enabled := true } :: rest)
    else
      match ensure_repository rest url with
      | none => none
      | some rest2 => some (r :: rest2)

/-! ### MD5 checksum computations (C9)

`hashlib.md5` is a library outside this repository; its documented
contract is that `update` accumulates bytes (`m.update(a); m.update(b)`
is equivalent to `m.update(a + b)`) and `hexdigest` is a function of the
accumulated byte sequence alone.  The state is therefore modelled as the
accumulated byte list and the digest as an arbitrary function of it,
shared by both call sites (both scripts call the same `hashlib.md5`). -/

/-- Accumulated state of a `hashlib.md5` object. -/
structure Md5State where
  acc : List Nat
  deriving DecidableEq, Repr

/-- `hashlib.md5()`. -/
def md5New : Md5State := ⟨[]⟩

/-- `md5_hash.update(chunk)`. -/
def md5Update (s : Md5State) (chunk : List Nat) : Md5State :=
  ⟨s.acc ++ chunk⟩

/-- `iter(lambda: f.read(4096), b"")`: the successive chunks of the file
content, each of 4096 bytes except a shorter final one, ending at the
first empty read. -/
def readIter4096 (bs : List Nat) : List (List Nat) :=
  if bs = [] then []
  else bs.take 4096 :: readIter4096 (bs.drop 4096)
termination_by bs.length
decreasing_by
  simp only [List.length_drop]
  rename_i h
  have : bs.length ≠ 0 := fun hl => h (List.eq_nil_of_length_eq_zero hl)
  omega

/-- `calculate_md5` (build-plugin.py lines 56-62): feed the file to the
hash 4096 bytes at a time and take the hex digest. -/
def calculate_md5 (hexdigest : List Nat → String) (file : List Nat) : String :=
  hexdigest ((readIter4096 file).foldl md5Update md5New).acc

/-- The checksum computation in deploy.py's `build_plugin` (lines
69-74): `hashlib.md5(f.read()).hexdigest()`, a single update with the
whole content. -/
def deployChecksum (hexdigest : List Nat → String) (file : List Nat) : String :=
  hexdigest (md5Update md5New file).acc

/-! ### Poll-loop lemmas -/

/-- The poll loop returns success exactly when some slot at or after the
starting one, inside the deadline, satisfies the check. -/
theorem pollLoop_true_iff (ok : Nat → Bool) (timeout k : Nat) :
    pollLoop ok timeout k = true ↔ ∃ j, k ≤ j ∧ 2 * j < timeout ∧ ok j = true := by
  have main : ∀ fuel k, timeout - 2 * k ≤ fuel →
      (pollLoop ok timeout k = true ↔ ∃ j, k ≤ j ∧ 2 * j < timeout ∧ ok j = true) := by
    intro fuel
    induction fuel with
    | zero =>
      intro k hle
      have hnot : ¬ 2 * k < timeout := by omega
      rw [pollLoop, if_neg hnot]
      constructor
      · intro h; exact absurd h (by simp)
      · rintro ⟨j, hkj, hj, _⟩; omega
    | succ n ih =>
      intro k hle
      by_cases h2k : 2 * k < timeout
      · rw [pollLoop, if_pos h2k]
        by_cases hok : ok k = true
        · rw [if_pos hok]
          exact ⟨fun _ => ⟨k, Nat.le_refl k, h2k, hok⟩, fun _ => rfl⟩
        · rw [if_neg hok]
          rw [ih (k + 1) (by omega)]
          constructor
          · rintro ⟨j, hkj, hj, hokj⟩; exact ⟨j, by omega, hj, hokj⟩
          · rintro ⟨j, hkj, hj, hokj⟩
            refine ⟨j, ?_, hj, hokj⟩
            rcases Nat.eq_or_lt_of_le hkj with heq | hlt
            · subst heq; exact absurd hokj hok
            · omega
      · rw [pollLoop, if_neg h2k]
        constructor
        · intro h; exact absurd h (by simp)
        · rintro ⟨j, hkj, hj, _⟩; omega
  exact main (timeout - 2 * k) k (Nat.le_refl _)

/-- If phase 1 answers a slot, that slot is inside the 60% sub-budget
and satisfies the check. -/
theorem cdnPhase1_some_spec (ok : Nat → Bool) (timeout : Nat) :
    ∀ k j, cdnPhase1 ok timeout k = some j →
      k ≤ j ∧ 20 * j < 6 * timeout ∧ ok j = true := by
  have main : ∀ fuel k j, 6 * timeout - 20 * k ≤ fuel →
      cdnPhase1 ok timeout k = some j →
      k ≤ j ∧ 20 * j < 6 * timeout ∧ ok j = true := by
    intro fuel
    induction fuel with
    | zero =>
      intro k j hle h
      have hnot : ¬ 20 * k < 6 * timeout := by omega
      rw [cdnPhase1, if_neg hnot] at h
      exact absurd h (by simp)
    | succ n ih =>
      intro k j hle h
      by_cases h2k : 20 * k < 6 * timeout
      · rw [cdnPhase1, if_pos h2k] at h
        by_cases hok : ok k = true
        · rw [if_pos hok] at h
          cases h
          exact ⟨Nat.le_refl k, h2k, hok⟩
        · rw [if_neg hok] at h
          have := ih (k + 1) j (by omega) h
          exact ⟨by omega, this.2.1, this.2.2⟩
      · rw [cdnPhase1, if_neg h2k] at h
        exact absurd h (by simp)
  intro k j h
  exact main (6 * timeout - 20 * k) k j (Nat.le_refl _) h

/-- If no slot inside the 60% sub-budget satisfies the check, phase 1
times out. -/
theorem cdnPhase1_eq_none (ok : Nat → Bool) (timeout : Nat)
    (h : ∀ j, 20 * j < 6 * timeout → ok j = false) :
    cdnPhase1 ok timeout 0 = none := by
  have main : ∀ fuel k, 6 * timeout - 20 * k ≤ fuel → cdnPhase1 ok timeout k = none := by
    intro fuel
    induction fuel with
    | zero =>
      intro k hle
      have hnot : ¬ 20 * k < 6 * timeout := by omega
      rw [cdnPhase1, if_neg hnot]
    | succ n ih =>
      intro k hle
      by_cases h2k : 20 * k < 6 * timeout
      · have hok : ¬ ok k = true := by rw [h k h2k]; simp
        rw [cdnPhase1, if_pos h2k, if_neg hok]
        exact ih (k + 1) (by omega)
      · rw [cdnPhase1, if_neg h2k]
  exact main (6 * timeout) 0 (by omega)

/-! ### Order lemmas for version tuples -/

theorem tupleLt_nil_cons (b : Int) (bs : List Int) : tupleLt [] (b :: bs) = true := rfl

/-- Head-first unfolding of the lexicographic comparison. -/
theorem tupleLt_cons_iff (a0 b0 : Int) (as' bs : List Int) :
    tupleLt (a0 :: as') (b0 :: bs) = true ↔
      a0 < b0 ∨ (a0 = b0 ∧ tupleLt as' bs = true) := by
  simp only [tupleLt]
  by_cases h1 : a0 < b0
  · simp [h1]
  · by_cases h2 : b0 < a0
    · simp only [if_neg h1, if_pos h2]
      constructor
      · intro h; exact absurd h (by simp)
      · rintro (h | ⟨rfl, _⟩)
        · exact absurd h h1
        · exact absurd h2 h1
    · have heq : a0 = b0 := le_antisymm (not_lt.mp h2) (not_lt.mp h1)
      simp [h1, h2, heq]

theorem tupleLt_irrefl : ∀ a : List Int, tupleLt a a = false := by
  intro a
  induction a with
  | nil => rfl
  | cons x xs ih => simp [tupleLt, ih]

theorem tupleLt_trans : ∀ a b c : List Int,
    tupleLt a b = true → tupleLt b c = true → tupleLt a c = true := by
  intro a
  induction a with
  | nil =>
    intro b c hab hbc
    cases b with
    | nil => exact absurd hab (by simp [tupleLt])
    | cons b0 bs =>
      cases c with
      | nil => exact absurd hbc (by simp [tupleLt])
      | cons c0 cs => exact tupleLt_nil_cons c0 cs
  | cons a0 as' ih =>
    intro b c hab hbc
    cases b with
    | nil => exact absurd hab (by simp [tupleLt])
    | cons b0 bs =>
      cases c with
      | nil => exact absurd hbc (by simp [tupleLt])
      | cons c0 cs =>
        rw [tupleLt_cons_iff] at hab hbc ⊢
        rcases hab with h1 | ⟨rfl, h1⟩
        · rcases hbc with h2 | ⟨rfl, _⟩
          · exact Or.inl (h1.trans h2)
          · exact Or.inl h1
        · rcases hbc with h2 | ⟨rfl, h2⟩
          · exact Or.inl h2
          · exact Or.inr ⟨rfl, ih bs cs h1 h2⟩

theorem tupleLt_total : ∀ a b : List Int,
    tupleLt a b = true ∨ tupleLt b a = true ∨ a = b := by
  intro a
  induction a with
  | nil =>
    intro b
    cases b with
    | nil => exact Or.inr (Or.inr rfl)
    | cons b0 bs => exact Or.inl (tupleLt_nil_cons b0 bs)
  | cons a0 as' ih =>
    intro b
    cases b with
    | nil => exact Or.inr (Or.inl (tupleLt_nil_cons a0 as'))
    | cons b0 bs =>
      rcases lt_trichotomy a0 b0 with h | h | h
      · exact Or.inl ((tupleLt_cons_iff _ _ _ _).mpr (Or.inl h))
      · subst h
        rcases ih bs with h' | h' | h'
        · exact Or.inl ((tupleLt_cons_iff _ _ _ _).mpr (Or.inr ⟨rfl, h'⟩))
        · exact Or.inr (Or.inl ((tupleLt_cons_iff _ _ _ _).mpr (Or.inr ⟨rfl, h'⟩)))
        · subst h'; exact Or.inr (Or.inr rfl)
      · exact Or.inr (Or.inl ((tupleLt_cons_iff _ _ _ _).mpr (Or.inl h)))

theorem tupleLt_asymm (a b : List Int) (h : tupleLt a b = true) : tupleLt b a = false := by
  by_contra hc
  have h2 : tupleLt b a = true := by revert hc; cases tupleLt b a <;> simp
  have h3 := tupleLt_trans a b a h h2
  rw [tupleLt_irrefl] at h3
  exact absurd h3 (by simp)

/-- Being not-strictly-below is transitive (via totality). -/
theorem tupleLt_false_trans (m a b : List Int)
    (h1 : tupleLt m a = false) (h2 : tupleLt a b = false) : tupleLt m b = false := by
  by_contra hc
  have hmb : tupleLt m b = true := by revert hc; cases tupleLt m b <;> simp
  rcases tupleLt_total a b with h | h | h
  · rw [h] at h2; exact absurd h2 (by simp)
  · have h4 := tupleLt_trans m b a hmb h
    rw [h4] at h1; exact absurd h1 (by simp)
  · subst h; rw [hmb] at h1; exact absurd h1 (by simp)

/-- The fold implementing `max(versions)` returns an element of the list
that no element strictly exceeds. -/
theorem maxVersion_spec : ∀ (vs : List (List Int)) (v : List Int),
    maxVersion v vs ∈ v :: vs ∧ ∀ x ∈ v :: vs, tupleLt (maxVersion v vs) x = false := by
  intro vs
  induction vs with
  | nil =>
    intro v
    refine ⟨List.mem_singleton.mpr rfl, ?_⟩
    intro x hx
    rw [List.mem_singleton] at hx
    subst hx
    exact tupleLt_irrefl _
  | cons y ys ih =>
    intro v
    by_cases hvy : tupleLt v y = true
    · have hstep : maxVersion v (y :: ys) = maxVersion y ys := by
        simp [maxVersion, hvy]
      have h := ih y
      constructor
      · rw [hstep]
        exact List.mem_cons_of_mem v h.1
      · intro x hx
        rw [hstep]
        rcases List.mem_cons.mp hx with rfl | hx'
        · exact tupleLt_false_trans _ _ _ (h.2 y (List.mem_cons_self _ _))
            (tupleLt_asymm _ _ hvy)
        · exact h.2 x hx'
    · have hstep : maxVersion v (y :: ys) = maxVersion v ys := by
        simp [maxVersion, hvy]
      have hvy' : tupleLt v y = false := by revert hvy; cases tupleLt v y <;> simp
      have h := ih v
      constructor
      · rw [hstep]
        rcases List.mem_cons.mp h.1 with hm | hm
        · rw [hm]; exact List.mem_cons_self _ _
        · exact List.mem_cons_of_mem _ (List.mem_cons_of_mem _ hm)
      · intro x hx
        rw [hstep]
        rcases List.mem_cons.mp hx with rfl | hx'
        · exact h.2 x (List.mem_cons_self _ _)
        · rcases List.mem_cons.mp hx' with rfl | hx''
          · exact tupleLt_false_trans _ _ _ (h.2 v (List.mem_cons_self _ _)) hvy'
          · exact h.2 x (List.mem_cons_of_mem _ hx'')

/-! ### Parsing lemmas -/

theorem allInts?_length : ∀ (ps : List (List Char)) (vs : List Int),
    allInts? ps = some vs → vs.length = ps.length := by
  intro ps
  induction ps with
  | nil =>
    intro vs h
    simp only [allInts?, Option.some.injEq] at h
    subst h
    rfl
  | cons p ps' ih =>
    intro vs h
    simp only [allInts?] at h
    cases hp : pyInt? p with
    | none => rw [hp] at h; exact absurd h (by simp)
    | some v =>
      cases hps : allInts? ps' with
      | none => rw [hp, hps] at h; exact absurd h (by simp)
      | some vs' =>
        rw [hp, hps, Option.some.injEq] at h
        subst h
        simp [ih vs' hps]

theorem parse_version_length_le (s : String) : (parse_version s).length ≤ 4 := by
  rw [parse_version]
  cases h : allInts? ((splitDots (lstripV s.data)).take 4) with
  | none => simp
  | some vals =>
    show vals.length ≤ 4
    have hlen := allInts?_length _ _ h
    rw [List.length_take] at hlen
    omega

theorem parse_version_of_malformed (s : String) (h : malformedTag s = true) :
    parse_version s = [0, 0, 0, 0] := by
  rw [malformedTag, Option.isNone_iff_eq_none] at h
  rw [parse_version, h]

theorem maxVersion_const (c : List Int) : ∀ (vs : List (List Int)),
    (∀ x ∈ vs, x = c) → maxVersion c vs = c := by
  intro vs
  induction vs with
  | nil => intro _; rfl
  | cons y ys ih =>
    intro h
    have hy : y = c := h y (List.mem_cons_self _ _)
    have hstep : maxVersion c (y :: ys) = maxVersion c ys := by
      subst hy
      simp [maxVersion, tupleLt_irrefl]
    rw [hstep]
    exact ih (fun x hx => h x (List.mem_cons_of_mem _ hx))

theorem padTo4_length (l : List Int) (h : l.length ≤ 4) : (padTo4 l).length = 4 := by
  simp only [padTo4, List.length_append, List.length_replicate]
  omega

theorem exists_four_of_length (l : List Int) (h : l.length = 4) :
    ∃ a b c d : Int, l = [a, b, c, d] := by
  cases l with
  | nil => simp at h
  | cons a l1 =>
    cases l1 with
    | nil => simp at h
    | cons b l2 =>
      cases l2 with
      | nil => simp at h
      | cons c l3 =>
        cases l3 with
        | nil => simp at h
        | cons d l4 =>
          cases l4 with
          | nil => exact ⟨a, b, c, d, rfl⟩
          | cons e l5 => simp only [List.length_cons] at h; omega

theorem bumpJoin_of_padTo4 (m : List Int) (a b c d : Int) (h : padTo4 m = [a, b, c, d]) :
    bumpJoin m = joinDots [toString a, toString b, toString c, toString (d + 1)] := by
  simp only [bumpJoin, h]
  rfl

/-! ### Manifest counting lemmas -/

theorem setFirstMatch_countP : ∀ (vs : List VersionEntry) (V c t p : String),
    (setFirstMatch vs V c t).countP (fun e => e.version == p) =
      vs.countP (fun e => e.version == p) := by
  intro vs
  induction vs with
  | nil => intro V c t p; rfl
  | cons v rest ih =>
    intro V c t p
    by_cases hv : (v.version == V) = true
    · simp only [setFirstMatch, if_pos hv, List.countP_cons]
    · simp only [setFirstMatch, if_neg hv, List.countP_cons, ih]

theorem setFirstMatch_checksum : ∀ (vs : List VersionEntry) (V c t : String),
    vs.countP (fun e => e.version == V) ≤ 1 →
    ∀ e ∈ setFirstMatch vs V c t, e.version = V → e.checksum = c := by
  intro vs
  induction vs with
  | nil =>
    intro V c t _ e he
    simp [setFirstMatch] at he
  | cons v rest ih =>
    intro V c t hcount e he hev
    by_cases hv : (v.version == V) = true
    · rw [setFirstMatch, if_pos hv] at he
      rcases List.mem_cons.mp he with rfl | he'
      · rfl
      · exfalso
        have hpe : (fun e => e.version == V) e = true := by
          simp only [hev, beq_self_eq_true]
        have hpos : 0 < rest.countP (fun e => e.version == V) :=
          List.countP_pos_iff.mpr ⟨e, he', hpe⟩
        rw [List.countP_cons, if_pos hv] at hcount
        omega
    · rw [setFirstMatch, if_neg hv] at he
      rcases List.mem_cons.mp he with rfl | he'
      · exact absurd (by simp only [hev, beq_self_eq_true]) hv
      · have hrest : rest.countP (fun e => e.version == V) ≤ 1 := by
          rw [List.countP_cons] at hcount
          omega
        exact ih V c t hrest e he' hev

theorem hasVersion_iff_countP_pos (vs : List VersionEntry) (V : String) :
    hasVersion vs V = true ↔ 0 < vs.countP (fun e => e.version == V) := by
  rw [hasVersion, List.any_eq_true, List.countP_pos_iff]

theorem update_manifest_of_hasVersion (vs : List VersionEntry) (V c t : String)
    (h : hasVersion vs V = true) :
    update_manifest vs V c t = setFirstMatch vs V c t := by
  rw [update_manifest, if_pos h]

theorem update_manifest_countP_eq_one (vs : List VersionEntry) (V c t : String)
    (h : vs.countP (fun e => e.version == V) ≤ 1) :
    (update_manifest vs V c t).countP (fun e => e.version == V) = 1 := by
  by_cases hv : hasVersion vs V = true
  · simp only [update_manifest, if_pos hv, setFirstMatch_countP]
    have := (hasVersion_iff_countP_pos vs V).mp hv
    omega
  · simp only [update_manifest, if_neg hv]
    have h0 : vs.countP (fun e => e.version == V) = 0 := by
      by_contra hc
      exact hv ((hasVersion_iff_countP_pos vs V).mpr (by omega))
    rw [List.countP_cons, if_pos (by simp [mkNewEntry] : ((mkNewEntry V c t).version == V) = true)]
    omega

/-! ### Claim C1 -/

/-- C1 as stated is false: `parse_version` does not discard a malformed
tag such as `"vX.Y"`; the `except ValueError` branch turns it into the
tuple `(0, 0, 0, 0)`, which then gets max-bumped, so the resolver
returns `"0.0.0.1"`, not `"1.0.0.0"`. -/
theorem c1_counterexample :
    get_next_version ["vX.Y"] [] ≠ "1.0.0.0" ∧
      get_next_version ["vX.Y"] [] = "0.0.0.1" := by
  constructor
  · decide
  · decide

/-- C1 (amended): for a history in which every tag starts with `v` but is
malformed, every tag parses to `(0, 0, 0, 0)` and the resolver returns
`"0.0.0.1"` without raising; tags that do not start with `v` are skipped
before parsing, so a history with no `v`-tag at all yields `"1.0.0.0"`.
The embedding is total, so no run raises an exception. -/
theorem c1_malformed_tags (gitTags releaseTags : List String) :
    ((gitTags ++ releaseTags ≠ []) →
      (∀ t ∈ gitTags ++ releaseTags, startsV t = true ∧ malformedTag t = true) →
      get_next_version gitTags releaseTags = "0.0.0.1") ∧
    ((∀ t ∈ gitTags ++ releaseTags, startsV t = false) →
      get_next_version gitTags releaseTags = "1.0.0.0") := by
  constructor
  · intro hne hall
    have hg : gitTags.filter startsV = gitTags :=
      List.filter_eq_self.mpr (fun t ht => (hall t (List.mem_append_left _ ht)).1)
    have hr : releaseTags.filter startsV = releaseTags :=
      List.filter_eq_self.mpr (fun t ht => (hall t (List.mem_append_right _ ht)).1)
    have hcomb : (gitTags.filter startsV).map parse_version ++
        (releaseTags.filter startsV).map parse_version =
        (gitTags ++ releaseTags).map parse_version := by
      rw [hg, hr, List.map_append]
    have hzero : ∀ x ∈ (gitTags ++ releaseTags).map parse_version, x = [0, 0, 0, 0] := by
      intro x hx
      rcases List.mem_map.mp hx with ⟨t, ht, rfl⟩
      exact parse_version_of_malformed t (hall t ht).2
    obtain ⟨v, vs, hcons⟩ : ∃ v vs,
        (gitTags ++ releaseTags).map parse_version = v :: vs := by
      cases hmap : (gitTags ++ releaseTags).map parse_version with
      | nil => exact absurd (List.map_eq_nil_iff.mp hmap) hne
      | cons v vs => exact ⟨v, vs, rfl⟩
    rw [get_next_version, hcomb, hcons]
    have hv : v = [0, 0, 0, 0] := hzero v (by rw [hcons]; exact List.mem_cons_self _ _)
    have hmax : maxVersion v vs = [0, 0, 0, 0] := by
      rw [hv]
      exact maxVersion_const _ vs
        (fun x hx => hzero x (by rw [hcons]; exact List.mem_cons_of_mem _ hx))
    show bumpJoin (maxVersion v vs) = "0.0.0.1"
    rw [hmax]
    decide
  · intro hall
    have hg : gitTags.filter startsV = [] :=
      List.filter_eq_nil_iff.mpr
        (fun t ht => by simp [hall t (List.mem_append_left _ ht)])
    have hr : releaseTags.filter startsV = [] :=
      List.filter_eq_nil_iff.mpr
        (fun t ht => by simp [hall t (List.mem_append_right _ ht)])
    rw [get_next_version, hg, hr]
    rfl

/-- C1 amended-claim witness: the concrete malformed history from the
spec's testable property. -/
theorem c1_malformed_tags_witness : get_next_version ["vX.Y"] [] = "0.0.0.1" :=
  (c1_malformed_tags ["vX.Y"] []).1 (by decide) (by decide)

/-! ### Claim C3 -/

/-- C3: for a nonempty history of `v`-tags the resolver returns the
tuple-maximum of the parsed versions, padded to four components, with
the last component incremented and the first three unchanged; the spec's
concrete examples hold, and a tag pair denoting the same tuple with and
without the leading `v` yields the same result as the `v` form alone. -/
theorem c3_resolve_max_bump (gitTags releaseTags : List String) :
    ((gitTags ++ releaseTags ≠ []) →
      (∀ t ∈ gitTags ++ releaseTags, startsV t = true) →
      ∃ m, m ∈ (gitTags ++ releaseTags).map parse_version ∧
        (∀ x ∈ (gitTags ++ releaseTags).map parse_version, tupleLt m x = false) ∧
        ∃ a b c d : Int, padTo4 m = [a, b, c, d] ∧
          get_next_version gitTags releaseTags =
            joinDots [toString a, toString b, toString c, toString (d + 1)]) ∧
    get_next_version ["v1.2.3.4", "v1.2.3.9", "v1.3.0.0"] [] = "1.3.0.1" ∧
    get_next_version [] [] = "1.0.0.0" ∧
    get_next_version ["v1.2.3.4", "1.2.3.4"] [] = get_next_version ["v1.2.3.4"] [] := by
  refine ⟨?_, by decide, by decide, by decide⟩
  intro hne hall
  have hg : gitTags.filter startsV = gitTags :=
    List.filter_eq_self.mpr (fun t ht => hall t (List.mem_append_left _ ht))
  have hr : releaseTags.filter startsV = releaseTags :=
    List.filter_eq_self.mpr (fun t ht => hall t (List.mem_append_right _ ht))
  have hcomb : (gitTags.filter startsV).map parse_version ++
      (releaseTags.filter startsV).map parse_version =
      (gitTags ++ releaseTags).map parse_version := by
    rw [hg, hr, List.map_append]
  obtain ⟨v, vs, hcons⟩ : ∃ v vs,
      (gitTags ++ releaseTags).map parse_version = v :: vs := by
    cases hmap : (gitTags ++ releaseTags).map parse_version with
    | nil => exact absurd (List.map_eq_nil_iff.mp hmap) hne
    | cons v vs => exact ⟨v, vs, rfl⟩
  have hspec := maxVersion_spec vs v
  refine ⟨maxVersion v vs, ?_, ?_, ?_⟩
  · rw [hcons]; exact hspec.1
  · intro x hx
    rw [hcons] at hx
    exact hspec.2 x hx
  · have hmem : maxVersion v vs ∈ (gitTags ++ releaseTags).map parse_version := by
      rw [hcons]; exact hspec.1
    rcases List.mem_map.mp hmem with ⟨t, _, hparse⟩
    have hlen : (maxVersion v vs).length ≤ 4 := by
      rw [← hparse]; exact parse_version_length_le t
    obtain ⟨a, b, c, d, hpad⟩ :=
      exists_four_of_length _ (padTo4_length _ hlen)
    refine ⟨a, b, c, d, hpad, ?_⟩
    rw [get_next_version, hcomb, hcons]
    show bumpJoin (maxVersion v vs) = _
    exact bumpJoin_of_padTo4 _ a b c d hpad

/-- C3 witness at a concrete one-tag history. -/
theorem c3_resolve_max_bump_witness :
    ∃ m, m ∈ ((["v1.2.3.4"] ++ ([] : List String)).map parse_version) ∧
      (∀ x ∈ (["v1.2.3.4"] ++ ([] : List String)).map parse_version,
        tupleLt m x = false) ∧
      ∃ a b c d : Int, padTo4 m = [a, b, c, d] ∧
        get_next_version ["v1.2.3.4"] [] =
          joinDots [toString a, toString b, toString c, toString (d + 1)] :=
  (c3_resolve_max_bump ["v1.2.3.4"] []).1 (by decide) (by decide)

/-! ### Claim C2 -/

/-- C2 as stated is false for deploy.py's `update_manifest`, which is
cited as one of its two implementations: it never scans for an existing
entry, so upserting the same version twice leaves two entries for that
version, not one. -/
theorem c2_counterexample :
    ((deployUpdateManifest
        (deployUpdateManifest [] "2.0.0.5" "c1" "t1") "2.0.0.5" "c2" "t2").countP
      (fun e => e.version == "2.0.0.5")) = 2 := by
  decide

/-- C2 (amended): the idempotency holds for build-plugin.py's
`update_manifest`: starting from a channel with at most one entry for
`V` (the documented channel invariant), upserting `(V, c1)` then
`(V, c2)` leaves exactly one entry whose version is `V`, and every such
entry carries checksum `c2`.  deploy.py's `update_manifest`
unconditionally prepends and does not satisfy the claim. -/
theorem c2_upsert_idempotent (entries : List VersionEntry) (V c1 c2 t1 t2 : String)
    (h : entries.countP (fun e => e.version == V) ≤ 1) :
    (update_manifest (update_manifest entries V c1 t1) V c2 t2).countP
        (fun e => e.version == V) = 1 ∧
      ∀ e ∈ update_manifest (update_manifest entries V c1 t1) V c2 t2,
        e.version = V → e.checksum = c2 := by
  have h1count : (update_manifest entries V c1 t1).countP
      (fun e => e.version == V) = 1 :=
    update_manifest_countP_eq_one entries V c1 t1 h
  have h2 : hasVersion (update_manifest entries V c1 t1) V = true :=
    (hasVersion_iff_countP_pos _ V).mpr (by omega)
  constructor
  · rw [update_manifest_of_hasVersion _ V c2 t2 h2, setFirstMatch_countP]
    exact h1count
  · rw [update_manifest_of_hasVersion _ V c2 t2 h2]
    exact setFirstMatch_checksum (update_manifest entries V c1 t1) V c2 t2 (by omega)

/-- C2 amended-claim witness at the spec's concrete version string. -/
theorem c2_upsert_idempotent_witness :
    (update_manifest (update_manifest [] "2.0.0.5" "c1" "t1") "2.0.0.5" "c2" "t2").countP
        (fun e => e.version == "2.0.0.5") = 1 ∧
      ∀ e ∈ update_manifest (update_manifest [] "2.0.0.5" "c1" "t1") "2.0.0.5" "c2" "t2",
        e.version = "2.0.0.5" → e.checksum = "c2" :=
  c2_upsert_idempotent [] "2.0.0.5" "c1" "c2" "t1" "t2" (by decide)

/-! ### Claim C6 -/

/-- C6: when no entry for `V` exists, both `update_manifest`
implementations prepend the fresh entry at index 0 and leave every
existing entry unchanged, in order, shifted by one position. -/
theorem c6_upsert_prepend (entries : List VersionEntry) (V c t : String)
    (h : ∀ e ∈ entries, e.version ≠ V) :
    update_manifest entries V c t = mkNewEntry V c t :: entries ∧
      deployUpdateManifest entries V c t = deployNewEntry V c t :: entries := by
  have hv : ¬ hasVersion entries V = true := by
    simp only [hasVersion, List.any_eq_true, not_exists]
    intro e
    rintro ⟨he, hbe⟩
    exact h e he (by simpa using hbe)
  exact ⟨by simp only [update_manifest, if_neg hv], rfl⟩

/-- C6 witness: prepending `2.0.0.0` over an existing `1.0.0.0` entry. -/
theorem c6_upsert_prepend_witness :
    update_manifest [mkNewEntry "1.0.0.0" "c0" "t0"] "2.0.0.0" "c" "t" =
        mkNewEntry "2.0.0.0" "c" "t" :: [mkNewEntry "1.0.0.0" "c0" "t0"] ∧
      deployUpdateManifest [mkNewEntry "1.0.0.0" "c0" "t0"] "2.0.0.0" "c" "t" =
        deployNewEntry "2.0.0.0" "c" "t" :: [mkNewEntry "1.0.0.0" "c0" "t0"] :=
  c6_upsert_prepend [mkNewEntry "1.0.0.0" "c0" "t0"] "2.0.0.0" "c" "t" (by decide)

/-! ### Claim C4 -/

/-- C4: if no manifest poll inside the 60% sub-budget observes the
expected first-entry checksum, the CDN check returns failure having
issued zero HEAD requests against the asset URL; and it returns success
only if some manifest poll inside the 60% sub-budget matched the
checksum and some HEAD inside the full timeout returned 200. -/
theorem c4_cdn_two_phase (fetch : Nat → Option (Nat × List ManifestChannel))
    (headStat : Nat → Option Nat) (expected : String) (timeout : Nat) :
    ((∀ k, 20 * k < 6 * timeout → manifestChecksumOk fetch expected k = false) →
      wait_for_cdn_update fetch headStat expected timeout = false ∧
        cdnHeadRequests fetch headStat expected timeout = 0) ∧
    (wait_for_cdn_update fetch headStat expected timeout = true →
      (∃ k, 20 * k < 6 * timeout ∧ manifestChecksumOk fetch expected k = true) ∧
      (∃ j, 2 * j < timeout ∧ headStat j = some 200)) := by
  constructor
  · intro hfail
    have hnone := cdnPhase1_eq_none (manifestChecksumOk fetch expected) timeout hfail
    refine ⟨?_, ?_⟩
    · rw [wait_for_cdn_update, hnone]
    · rw [cdnHeadRequests, hnone]
  · intro hsucc
    rw [wait_for_cdn_update] at hsucc
    cases hp : cdnPhase1 (manifestChecksumOk fetch expected) timeout 0 with
    | none => rw [hp] at hsucc; exact absurd hsucc (by simp)
    | some k =>
      rw [hp] at hsucc
      have hk := cdnPhase1_some_spec _ timeout 0 k hp
      refine ⟨⟨k, hk.2.1, hk.2.2⟩, ?_⟩
      rcases (pollLoop_true_iff _ timeout k).mp hsucc with ⟨j, _, hj, hok⟩
      exact ⟨j, hj, eq_of_beq hok⟩

/-- C4 witness: a manifest fetch that always raises exhausts phase 1, so
the check fails with no HEAD issued even though HEADs would succeed. -/
theorem c4_cdn_two_phase_witness :
    wait_for_cdn_update (fun _ => none) (fun _ => some 200) "c" 10 = false ∧
      cdnHeadRequests (fun _ => none) (fun _ => some 200) "c" 10 = 0 :=
  (c4_cdn_two_phase (fun _ => none) (fun _ => some 200) "c" 10).1 (fun _ _ => rfl)

/-! ### Claim C5 -/

/-- C5: `wait_for_plugin_state` special-cases the removed state (the
literal `"Deleted"` status string in the code, which the spec calls
"removed"): with that expected state it fails when the plugin stays
listed at every in-budget poll, succeeds as soon as any in-budget poll
observes the plugin absent from the list - absence at the very first
poll included, but also absence first appearing at a later poll, the
post-uninstall scenario - and for any other expected state success
requires a poll showing the plugin present with exactly that status. -/
theorem c5_wait_plugin_state (poll : Nat → Option (List Plugin))
    (name : String) (timeout : Nat) :
    ((∀ k, 2 * k < timeout → ∃ l, poll k = some l ∧ (findPlugin l name).isSome = true) →
      wait_for_plugin_state poll name "Deleted" timeout = false) ∧
    (∀ k l, 2 * k < timeout → poll k = some l → findPlugin l name = none →
      wait_for_plugin_state poll name "Deleted" timeout = true) ∧
    (∀ expected, expected ≠ "Deleted" →
      wait_for_plugin_state poll name expected timeout = true →
      ∃ k, 2 * k < timeout ∧ ∃ l, poll k = some l ∧
        ∃ p, findPlugin l name = some p ∧ p.Status = expected) := by
  refine ⟨?_, ?_, ?_⟩
  · intro hpresent
    rw [wait_for_plugin_state, ← Bool.not_eq_true]
    intro htrue
    rcases (pollLoop_true_iff _ _ _).mp htrue with ⟨j, _, hj, hok⟩
    rcases hpresent j hj with ⟨l, hl, hsome⟩
    rw [hl] at hok
    simp only [pluginStateOkPoll, beq_self_eq_true, if_true] at hok
    rw [Option.isNone_iff_eq_none] at hok
    rw [hok] at hsome
    exact absurd hsome (by simp)
  · intro k l hk hl hnone
    rw [wait_for_plugin_state, pollLoop_true_iff]
    refine ⟨k, Nat.zero_le k, hk, ?_⟩
    rw [hl]
    simp [pluginStateOkPoll, hnone]
  · intro expected hne hsucc
    rw [wait_for_plugin_state, pollLoop_true_iff] at hsucc
    rcases hsucc with ⟨j, _, hj, hok⟩
    refine ⟨j, hj, ?_⟩
    cases hl : poll j with
    | none => rw [hl] at hok; exact absurd hok (by simp [pluginStateOkPoll])
    | some l =>
      rw [hl] at hok
      simp only [pluginStateOkPoll] at hok
      rw [if_neg (by simp [hne] : ¬ (expected == "Deleted") = true)] at hok
      cases hp : findPlugin l name with
      | none => rw [hp] at hok; exact absurd hok (by simp)
      | some p =>
        rw [hp] at hok
        exact ⟨l, rfl, p, hp, by simpa using hok⟩

/-- C5 witness: the post-uninstall scenario - the plugin is still
listed at the first poll and becomes absent at the second, in-budget
poll - makes the removed wait succeed. -/
theorem c5_wait_plugin_state_witness :
    wait_for_plugin_state
        (fun k => if k = 0
          then some [{ Name := "TunnelFin", Version := "1.0.0.0", Status := "Active" }]
          else some [])
        "TunnelFin" "Deleted" 10 = true :=
  (c5_wait_plugin_state
      (fun k => if k = 0
        then some [{ Name := "TunnelFin", Version := "1.0.0.0", Status := "Active" }]
        else some [])
      "TunnelFin" 10).2.1 1 [] (by decide) (by simp) rfl

/-! ### Claim C7 -/

/-- C7: `wait_for_plugin_version` succeeds exactly when some in-budget
poll observes a plugin whose name matches case-insensitively, whose
`Version` field equals the target exactly, and whose `Status` is
`"Active"`; in particular a poll with the right version but a non-active
status never satisfies the condition. -/
theorem c7_wait_plugin_version (poll : Nat → Option (List Plugin))
    (name version : String) (timeout : Nat) :
    wait_for_plugin_version poll name version timeout = true ↔
      ∃ k, 2 * k < timeout ∧ ∃ l, poll k = some l ∧
        ∃ p ∈ l, lowerStr p.Name = lowerStr name ∧
          p.Version = version ∧ p.Status = "Active" := by
  rw [wait_for_plugin_version, pollLoop_true_iff]
  constructor
  · rintro ⟨j, _, hj, hok⟩
    refine ⟨j, hj, ?_⟩
    cases hl : poll j with
    | none => rw [hl] at hok; exact absurd hok (by simp [pluginVersionOkPoll])
    | some l =>
      rw [hl] at hok
      simp only [pluginVersionOkPoll, List.any_eq_true, Bool.and_eq_true,
        beq_iff_eq] at hok
      rcases hok with ⟨p, hp, hcond⟩
      exact ⟨l, rfl, p, hp, hcond.1.1, hcond.1.2, hcond.2⟩
  · rintro ⟨k, hk, l, hl, p, hp, hn, hv, hs⟩
    refine ⟨k, Nat.zero_le k, hk, ?_⟩
    rw [hl]
    simp only [pluginVersionOkPoll, List.any_eq_true, Bool.and_eq_true, beq_iff_eq]
    exact ⟨p, hp, ⟨hn, hv⟩, hs⟩

/-! ### Claim C8 -/

/-- C8: `restart_server` returns normally whatever the POST to the
restart endpoint does - a raised connection error included - and never
reports a failure to its caller. -/
theorem c8_restart_swallows (post : PyOutcome Unit) :
    restart_server post = PyOutcome.ok () := by
  cases post <;> rfl

/-! ### Claim C9 -/

/-- Chunk-feeding the accumulator is the same as appending the whole
content. -/
theorem md5_chunks_acc : ∀ (n : Nat) (bs : List Nat), bs.length ≤ n →
    ∀ acc : List Nat,
      ((readIter4096 bs).foldl md5Update ⟨acc⟩).acc = acc ++ bs := by
  intro n
  induction n with
  | zero =>
    intro bs hlen acc
    have hbs : bs = [] := List.eq_nil_of_length_eq_zero (by omega)
    subst hbs
    rw [readIter4096]
    simp
  | succ n ih =>
    intro bs hlen acc
    by_cases hbs : bs = []
    · subst hbs
      rw [readIter4096]
      simp
    · rw [readIter4096, if_neg hbs, List.foldl_cons]
      have hdrop : (bs.drop 4096).length ≤ n := by
        have h1 : 0 < bs.length := List.length_pos.mpr hbs
        simp only [List.length_drop]
        omega
      have hrest := ih (bs.drop 4096) hdrop (acc ++ bs.take 4096)
      rw [show md5Update ⟨acc⟩ (bs.take 4096) = ⟨acc ++ bs.take 4096⟩ from rfl]
      rw [hrest, List.append_assoc, List.take_append_drop]

/-- C9: for every payload, the chunked MD5 of `calculate_md5` and the
single-read MD5 of deploy.py's `build_plugin` feed the digest function
the same byte sequence, hence produce the same hex digest string. -/
theorem c9_md5_agree (hexdigest : List Nat → String) (file : List Nat) :
    calculate_md5 hexdigest file = deployChecksum hexdigest file := by
  have h1 := md5_chunks_acc file.length file (Nat.le_refl _) []
  rw [calculate_md5, deployChecksum]
  rw [show md5New = (⟨[]⟩ : Md5State) from rfl, h1]
  rfl

/-! ### Claim C10 -/

/-- Splitting the registration list at its first substring match
determines `ensure_repository` completely. -/
theorem ensure_repository_split : ∀ (pre : List Repo) (r : Repo) (post : List Repo)
    (url : String),
    (∀ x ∈ pre, strContains x.Name "TunnelFin" = false) →
    strContains r.Name "TunnelFin" = true →
    (r.Url = url → ensure_repository (pre ++ r :: post) url = none) ∧
    (r.Url ≠ url → ensure_repository (pre ++ r :: post) url =
      some (pre ++ { r with Url := url, Enabled := true } :: post)) := by
  intro pre
  induction pre with
  | nil =>
    intro r post url _ hr
    constructor
    · intro hu
      simp only [List.nil_append, ensure_repository, if_pos hr]
      rw [if_pos (by simp [hu] : (r.Url == url) = true)]
    · intro hu
      simp only [List.nil_append, ensure_repository, if_pos hr]
      rw [if_neg (by simp [hu] : ¬ (r.Url == url) = true)]
  | cons x xs ih =>
    intro r post url hpre hr
    have hx : ¬ strContains x.Name "TunnelFin" = true := by
      rw [hpre x (List.mem_cons_self _ _)]
      simp
    have hih := ih r post url (fun y hy => hpre y (List.mem_cons_of_mem _ hy)) hr
    constructor
    · intro hu
      simp only [List.cons_append, ensure_repository, if_neg hx, List.append_eq]
      rw [hih.1 hu]
    · intro hu
      simp only [List.cons_append, ensure_repository, if_neg hx, List.append_eq]
      rw [hih.2 hu]

/-- C10: the registration to manage is the first one whose `Name`
contains the substring `"TunnelFin"` (so e.g. `"TunnelFinMirror"`
matches and later matches are ignored); if that registration's `Url`
already equals the target the call makes no write at all - in particular
a disabled registration with the correct URL stays disabled - and if the
`Url` differs, only that registration is rewritten (URL replaced,
enabled), everything else unchanged. -/
theorem c10_ensure_repository (pre : List Repo) (r : Repo) (post : List Repo)
    (url : String)
    (hpre : ∀ x ∈ pre, strContains x.Name "TunnelFin" = false)
    (hr : strContains r.Name "TunnelFin" = true) :
    ((r.Url = url → ensure_repository (pre ++ r :: post) url = none) ∧
      (r.Url ≠ url → ensure_repository (pre ++ r :: post) url =
        some (pre ++ { r with Url := url, Enabled := true } :: post))) ∧
    strContains "TunnelFinMirror" "TunnelFin" = true :=
  ⟨ensure_repository_split pre r post url hpre hr, by decide⟩

/-- C10 witness: a disabled registration named `TunnelFinMirror` with
the target URL is matched by substring and left untouched (and so stays
disabled). -/
theorem c10_ensure_repository_witness :
    ensure_repository
        [{ Name := "TunnelFinMirror",
           Url := "https://raw.githubusercontent.com/jefflouisma/TunnelFin/main/manifest.json",
           Enabled := false }]
        "https://raw.githubusercontent.com/jefflouisma/TunnelFin/main/manifest.json" =
      none := by
  have h := c10_ensure_repository []
    { Name := "TunnelFinMirror",
      Url := "https://raw.githubusercontent.com/jefflouisma/TunnelFin/main/manifest.json",
      Enabled := false }
    [] "https://raw.githubusercontent.com/jefflouisma/TunnelFin/main/manifest.json"
    (by simp) (by decide)
  exact h.1.1 rfl

/-- C7 witness: a host listing the plugin as Active with the target
version makes the wait succeed. -/
theorem c7_wait_plugin_version_witness :
    wait_for_plugin_version
        (fun _ => some [{ Name := "TunnelFin", Version := "3.1.0.2", Status := "Active" }])
        "TunnelFin" "3.1.0.2" 10 = true :=
  (c7_wait_plugin_version
      (fun _ => some [{ Name := "TunnelFin", Version := "3.1.0.2", Status := "Active" }])
      "TunnelFin" "3.1.0.2" 10).mpr
    ⟨0, by decide, [{ Name := "TunnelFin", Version := "3.1.0.2", Status := "Active" }],
      rfl, { Name := "TunnelFin", Version := "3.1.0.2", Status := "Active" },
      List.mem_singleton.mpr rfl, rfl, rfl, rfl⟩

end TunnelFin
